import Mathlib

/-!
Verification of the elevator simulation (src/elevator_simulation.js).

The data model and every operation below are shallow embeddings of the
JavaScript source: `Elevator` mirrors the `Elevator` class, all the
methods are translated field by field, and `ElevatorController` mirrors
the controller with its scoring loop.  Asynchronous delays, logging and
the timestamp field of `FloorRequest` have no effect on the dispatch
state and are elided; each `async` method is embedded as the state
transformer given by its final state.
-/

namespace ElevatorSim

/-- `Direction` enum of the source: UP = 1, DOWN = -1, IDLE = 0. -/
inductive Direction where
  | up
  | down
  | idle
deriving DecidableEq, Repr

/-- `DoorState` enum of the source: OPEN, CLOSED, OPENING, CLOSING. -/
inductive DoorState where
  | opened
  | closed
  | opening
  | closing
deriving DecidableEq, Repr

/-- `FloorRequest` class (the wall-clock `timestamp` field is omitted:
nothing in the dispatch logic reads it). -/
structure FloorRequest where
  floor : Int
  direction : Direction
deriving DecidableEq, Repr

/-- The `Elevator` class state. -/
structure Elevator where
  elevatorId : Int
  minFloor : Int
  maxFloor : Int
  currentFloor : Int
  direction : Direction
  doorState : DoorState
  floorRequests : List Int
  hallRequests : List FloorRequest
  isMoving : Bool
  capacity : Int
  currentPassengers : Int
deriving DecidableEq, Repr

/-- `new Elevator(elevatorId, minFloor, maxFloor)`: note the source sets
`this.currentFloor = 1` unconditionally. -/
def Elevator.make (elevatorId minFloor maxFloor : Int) : Elevator :=
  { elevatorId := elevatorId
    minFloor := minFloor
    maxFloor := maxFloor
    currentFloor := 1
    direction := Direction.idle
    doorState := DoorState.closed
    floorRequests := []
    hallRequests := []
    isMoving := false
    capacity := 8
    currentPassengers := 0 }

/-- `Elevator._isValidFloor`. -/
def Elevator.isValidFloor (e : Elevator) (floor : Int) : Prop :=
  e.minFloor ≤ floor ∧ floor ≤ e.maxFloor

instance (e : Elevator) (floor : Int) : Decidable (e.isValidFloor floor) := by
  unfold Elevator.isValidFloor
  infer_instance

/-- Insertion of one element into a list, keeping ascending order. -/
def sortedInsert (x : Int) : List Int → List Int
  | [] => [x]
  | y :: ys => if x ≤ y then x :: y :: ys else y :: sortedInsert x ys

/-- Ascending numeric sort, the effect of `sort((a, b) => a - b)`. -/
def jsSort : List Int → List Int
  | [] => []
  | x :: xs => sortedInsert x (jsSort xs)

/-- `Elevator.requestFloor(floor)`: cabin request.  Returns the boolean
result together with the updated state. -/
def Elevator.requestFloor (floor : Int) (e : Elevator) : Bool × Elevator :=
  if ¬ e.isValidFloor floor then (false, e)
  else if floor = e.currentFloor ∧ e.doorState = DoorState.closed then (true, e)
  else if floor ∈ e.floorRequests then (true, e)
  else (true, { e with floorRequests := jsSort (e.floorRequests ++ [floor]) })

/-- `Elevator.callElevator(floor, direction)`: hall request. -/
def Elevator.callElevator (floor : Int) (d : Direction) (e : Elevator) :
    Bool × Elevator :=
  if ¬ e.isValidFloor floor then (false, e)
  else if (floor = e.maxFloor ∧ d = Direction.up) ∨
          (floor = e.minFloor ∧ d = Direction.down) then (false, e)
  else if ∃ r ∈ e.hallRequests, r.floor = floor ∧ r.direction = d then (true, e)
  else (true, { e with hallRequests := e.hallRequests ++ [⟨floor, d⟩] })

/-- Append an element to a list unless already present: the effect of
`Set.add` under JavaScript insertion-order iteration. -/
def addUnique (xs : List Int) (x : Int) : List Int :=
  if x ∈ xs then xs else xs ++ [x]

/-- `new Set(array)` as an insertion-ordered duplicate-free list. -/
def dedupKeepFirst (xs : List Int) : List Int :=
  xs.foldl addUnique []

/-- The per-hall-request eligibility test of `_getNextDestination`. -/
def Elevator.hallEligible (e : Elevator) (r : FloorRequest) : Prop :=
  e.direction = Direction.idle ∨
  r.direction = e.direction ∨
  r.floor = e.currentFloor ∨
  (e.direction = Direction.up ∧ e.currentFloor < r.floor) ∨
  (e.direction = Direction.down ∧ r.floor < e.currentFloor)

instance (e : Elevator) (r : FloorRequest) : Decidable (e.hallEligible r) := by
  unfold Elevator.hallEligible
  infer_instance

/-- The `allFloors` set of `_getNextDestination`, in iteration order:
cabin-request floors first, then each eligible hall-request floor. -/
def Elevator.allFloorsList (e : Elevator) : List Int :=
  e.hallRequests.foldl
    (fun acc r => if e.hallEligible r then addUnique acc r.floor else acc)
    (dedupKeepFirst e.floorRequests)

/-- `Math.min(...xs)` for a non-empty list (junk value 0 on `[]`). -/
def listMin : List Int → Int
  | [] => 0
  | x :: xs => xs.foldl min x

/-- `Math.max(...xs)` for a non-empty list (junk value 0 on `[]`). -/
def listMax : List Int → Int
  | [] => 0
  | x :: xs => xs.foldl max x

/-- The `reduce` of `_getNextDestination`'s fallback: keep the element
closest to `cf`, the earlier one on ties. -/
def reduceClosest (cf : Int) : List Int → Int
  | [] => 0
  | x :: xs =>
      xs.foldl
        (fun closest current =>
          if (current - cf).natAbs < (closest - cf).natAbs then current else closest)
        x

/-- `Elevator._getNextDestination()`. -/
def Elevator.getNextDestination (e : Elevator) : Option Int :=
  let floorsArray := e.allFloorsList
  if floorsArray = [] then none
  else
    let upFloors := floorsArray.filter (fun f => decide (e.currentFloor < f))
    let downFloors := floorsArray.filter (fun f => decide (f < e.currentFloor))
    if (e.direction = Direction.up ∨ e.direction = Direction.idle) ∧ upFloors ≠ [] then
      some (listMin upFloors)
    else if (e.direction = Direction.down ∨ e.direction = Direction.idle) ∧ downFloors ≠ [] then
      some (listMax downFloors)
    else if e.direction ≠ Direction.idle ∧ floorsArray ≠ [] then
      some (reduceClosest e.currentFloor floorsArray)
    else
      none

/-- `Elevator._updateDirection(destination)`. -/
def Elevator.updateDirection (destination : Int) (e : Elevator) : Elevator :=
  if e.currentFloor < destination then { e with direction := Direction.up }
  else if destination < e.currentFloor then { e with direction := Direction.down }
  else { e with direction := Direction.idle }

/-- `Elevator._removeCompletedRequests(floor)`. -/
def Elevator.removeCompletedRequests (floor : Int) (e : Elevator) : Elevator :=
  { e with
    floorRequests := e.floorRequests.erase floor
    hallRequests :=
      e.hallRequests.filter
        (fun r =>
          !(decide (r.floor = floor ∧
              (r.direction = e.direction ∨ e.direction = Direction.idle)))) }

/-- `Elevator._moveToFloor(targetFloor)`: returns at once when already
at the target (in particular without updating the direction); otherwise
updates direction, travels, and ends with `isMoving = false`. -/
def Elevator.moveToFloor (targetFloor : Int) (e : Elevator) : Elevator :=
  if targetFloor = e.currentFloor then e
  else
    let e1 := e.updateDirection targetFloor
    { e1 with currentFloor := targetFloor, isMoving := false }

/-- `Elevator.runCycle()`: one unit of dispatch work; the pair is the
returned boolean together with the state after the cycle (doors end
closed). -/
def Elevator.runCycle (e : Elevator) : Bool × Elevator :=
  match e.getNextDestination with
  | none => (false, { e with direction := Direction.idle })
  | some destination =>
      let e1 := e.moveToFloor destination
      let e2 := { e1 with doorState := DoorState.opened }
      let e3 := e2.removeCompletedRequests destination
      let e4 := { e3 with doorState := DoorState.closed }
      (true, e4)

/-- Iterate `runCycle` (discarding the work flags). -/
def iterCycles : Nat → Elevator → Elevator
  | 0, e => e
  | n + 1, e => iterCycles n (e.runCycle).2

/-- The `ElevatorController` class state. -/
structure ElevatorController where
  elevators : List Elevator
  minFloor : Int
  maxFloor : Int
deriving DecidableEq, Repr

/-- `new ElevatorController(numElevators, minFloor, maxFloor)`. -/
def ElevatorController.make (numElevators : Nat) (minFloor maxFloor : Int) :
    ElevatorController :=
  { elevators :=
      (List.range numElevators).map
        (fun i => Elevator.make (Int.ofNat i + 1) minFloor maxFloor)
    minFloor := minFloor
    maxFloor := maxFloor }

/-- The score the controller computes for one elevator:
`|currentFloor − floor|`, −2 on matching direction, +1 when busy. -/
def scoreOf (floor : Int) (d : Direction) (e : Elevator) : Int :=
  ((e.currentFloor - floor).natAbs : Int)
    - (if e.direction = d then 2 else 0)
    + (if e.isMoving = true ∨ e.floorRequests ≠ [] ∨ e.hallRequests ≠ [] then 1 else 0)

/-- The controller's selection loop: scan elevators in order, keeping
the first strictly smaller score (ties keep the earlier elevator). -/
def bestIndexAux (floor : Int) (d : Direction) :
    List Elevator → Nat → Option (Nat × Int) → Option Nat
  | [], _, best => best.map Prod.fst
  | e :: rest, i, best =>
      let s := scoreOf floor d e
      let best' :=
        match best with
        | none => some (i, s)
        | some (j, bs) => some (if s < bs then (i, s) else (j, bs))
      bestIndexAux floor d rest (i + 1) best'

/-- Index of the elevator `ElevatorController.callElevator` picks. -/
def bestIndex (floor : Int) (d : Direction) (es : List Elevator) : Option Nat :=
  bestIndexAux floor d es 0 none

/-- `ElevatorController.callElevator(floor, direction)`. -/
def ElevatorController.callElevator (floor : Int) (d : Direction)
    (c : ElevatorController) : Bool × ElevatorController :=
  if floor < c.minFloor ∨ c.maxFloor < floor then (false, c)
  else
    match bestIndex floor d c.elevators with
    | none => (false, c)
    | some i =>
        match c.elevators[i]? with
        | none => (false, c)
        | some e =>
            let p := Elevator.callElevator floor d e
            (p.1, { c with elevators := c.elevators.set i p.2 })

/-- One `stepAll` round: `runCycle` on every elevator, result true when
any car did work. -/
def stepAll (c : ElevatorController) : Bool × ElevatorController :=
  let results := c.elevators.map Elevator.runCycle
  (results.any Prod.fst, { c with elevators := results.map Prod.snd })

/-- Iterate `stepAll` (discarding the work flags). -/
def iterStepAll : Nat → ElevatorController → ElevatorController
  | 0, c => c
  | n + 1, c => iterStepAll n (stepAll c).2

/-- One externally visible operation on a single car. -/
inductive ElevOp where
  | cabin (floor : Int)
  | hall (floor : Int) (d : Direction)
  | cycle

/-- Apply one operation, discarding the boolean result. -/
def applyOp (e : Elevator) : ElevOp → Elevator
  | ElevOp.cabin f => (Elevator.requestFloor f e).2
  | ElevOp.hall f d => (Elevator.callElevator f d e).2
  | ElevOp.cycle => (Elevator.runCycle e).2

/-- Apply a sequence of operations left to right. -/
def applyOps (e : Elevator) (ops : List ElevOp) : Elevator :=
  ops.foldl applyOp e

/-- The range invariant: the current floor and every queued floor lie
within the car's bounds. -/
def rangeInv (e : Elevator) : Prop :=
  e.minFloor ≤ e.currentFloor ∧ e.currentFloor ≤ e.maxFloor ∧
  (∀ f ∈ e.floorRequests, e.minFloor ≤ f ∧ f ≤ e.maxFloor) ∧
  (∀ r ∈ e.hallRequests, e.minFloor ≤ r.floor ∧ r.floor ≤ e.maxFloor)

/-- A fresh car on floors 1–10. -/
def demoCarA : Elevator :=
  Elevator.make 1 1 10

/-- After a cabin request for floor 5. -/
def demoCarB : Elevator :=
  (Elevator.requestFloor 5 demoCarA).2

/-- After one cycle: the car sits at floor 5 with direction Up. -/
def demoCarC : Elevator :=
  (Elevator.runCycle demoCarB).2

/-- After a Down hall call at floor 5: the car is at floor 5, direction
Up, with a pending Down hall request at its own floor. -/
def stuckCar : Elevator :=
  (Elevator.callElevator 5 Direction.down demoCarC).2

/-- A one-car building holding `stuckCar`. -/
def stuckController : ElevatorController :=
  { elevators := [stuckCar], minFloor := 1, maxFloor := 10 }

/-- The demo scenario: two cars, floors 1–10. -/
def scenario0 : ElevatorController :=
  ElevatorController.make 2 1 10

/-- After `callElevator(5, UP)` on the controller. -/
def scenario1 : ElevatorController :=
  (ElevatorController.callElevator 5 Direction.up scenario0).2

/-- After `callElevator(8, DOWN)` on the controller. -/
def scenario2 : ElevatorController :=
  (ElevatorController.callElevator 8 Direction.down scenario1).2

/-- Car 1 of the scenario after cabin requests for floors 7 and 3. -/
def scenarioCar1 : Elevator :=
  (Elevator.requestFloor 3
    ((Elevator.requestFloor 7
      (scenario2.elevators.getD 0 (Elevator.make 0 1 10))).2)).2

/-- Car 2 of the scenario, holding the Down hall call at floor 8. -/
def scenarioCar2 : Elevator :=
  scenario2.elevators.getD 1 (Elevator.make 0 1 10)

/-- A sample Idle car at floor 1 with cabin requests for floors 4 and 7. -/
def sampleUpCar : Elevator :=
  { Elevator.make 1 1 10 with floorRequests := [4, 7] }

/-- A sample car at floor 6 committed to Up whose only eligible floor
lies below it. -/
def sampleFallbackCar : Elevator :=
  { Elevator.make 1 1 10 with
      currentFloor := 6
      direction := Direction.up
      floorRequests := [2] }

/-- A sample Idle car at floor 3 whose only pending request is an Up
hall call at floor 3 itself. -/
def sampleHereCar : Elevator :=
  { Elevator.make 1 1 10 with
      currentFloor := 3
      hallRequests := [⟨3, Direction.up⟩] }

/-- A sample car at floor 2 heading Up with a cabin request for floor 9
and a Down hall call at floor 9. -/
def sampleServeCar : Elevator :=
  { Elevator.make 1 1 10 with
      currentFloor := 2
      direction := Direction.up
      floorRequests := [9]
      hallRequests := [⟨9, Direction.down⟩, ⟨9, Direction.up⟩] }

lemma mem_addUnique {xs : List Int} {x y : Int} :
    y ∈ addUnique xs x ↔ y ∈ xs ∨ y = x := by
  unfold addUnique
  by_cases h : x ∈ xs
  · simp only [if_pos h]
    constructor
    · exact Or.inl
    · rintro (hy | rfl)
      · exact hy
      · exact h
  · simp [if_neg h]

lemma mem_foldl_addUnique (xs : List Int) :
    ∀ (acc : List Int) (y : Int), y ∈ xs.foldl addUnique acc ↔ y ∈ acc ∨ y ∈ xs := by
  induction xs with
  | nil => simp
  | cons x xs ih =>
      intro acc y
      simp only [List.foldl_cons, ih, mem_addUnique, List.mem_cons]
      tauto

lemma mem_dedupKeepFirst {xs : List Int} {y : Int} :
    y ∈ dedupKeepFirst xs ↔ y ∈ xs := by
  unfold dedupKeepFirst
  simp [mem_foldl_addUnique]

lemma mem_hallFold (e : Elevator) (l : List FloorRequest) :
    ∀ (acc : List Int) (y : Int),
      y ∈ l.foldl
            (fun acc r => if e.hallEligible r then addUnique acc r.floor else acc)
            acc
        ↔ y ∈ acc ∨ ∃ r ∈ l, e.hallEligible r ∧ r.floor = y := by
  induction l with
  | nil => simp
  | cons r l ih =>
      intro acc y
      simp only [List.foldl_cons, ih, List.mem_cons]
      by_cases h : e.hallEligible r
      · simp only [if_pos h, mem_addUnique]
        constructor
        · rintro ((hy | rfl) | ⟨r2, hr2, he2, hf2⟩)
          · exact Or.inl hy
          · exact Or.inr ⟨r, Or.inl rfl, h, rfl⟩
          · exact Or.inr ⟨r2, Or.inr hr2, he2, hf2⟩
        · rintro (hy | ⟨r2, (rfl | hr2), he2, hf2⟩)
          · exact Or.inl (Or.inl hy)
          · exact Or.inl (Or.inr hf2.symm)
          · exact Or.inr ⟨r2, hr2, he2, hf2⟩
      · simp only [if_neg h]
        constructor
        · rintro (hy | ⟨r2, hr2, he2, hf2⟩)
          · exact Or.inl hy
          · exact Or.inr ⟨r2, Or.inr hr2, he2, hf2⟩
        · rintro (hy | ⟨r2, (rfl | hr2), he2, hf2⟩)
          · exact Or.inl hy
          · exact absurd he2 h
          · exact Or.inr ⟨r2, hr2, he2, hf2⟩

/-- Membership in the eligible set: exactly the pending cabin floors
together with the hall-request floors passing the SCAN test. -/
lemma mem_allFloorsList {e : Elevator} {y : Int} :
    y ∈ e.allFloorsList ↔
      y ∈ e.floorRequests ∨ ∃ r ∈ e.hallRequests, e.hallEligible r ∧ r.floor = y := by
  unfold Elevator.allFloorsList
  rw [mem_hallFold, mem_dedupKeepFirst]

lemma foldl_min_le_init (xs : List Int) :
    ∀ a : Int, xs.foldl min a ≤ a := by
  induction xs with
  | nil => intro a; exact le_refl a
  | cons x xs ih =>
      intro a
      exact le_trans (ih (min a x)) (min_le_left a x)

lemma foldl_min_le_mem (xs : List Int) :
    ∀ (a y : Int), y ∈ xs → xs.foldl min a ≤ y := by
  induction xs with
  | nil => intro a y hy; cases hy
  | cons x xs ih =>
      intro a y hy
      rcases List.mem_cons.mp hy with rfl | hy
      · exact le_trans (foldl_min_le_init xs (min a y)) (min_le_right a y)
      · exact ih (min a x) y hy

lemma foldl_min_mem (xs : List Int) :
    ∀ a : Int, xs.foldl min a = a ∨ xs.foldl min a ∈ xs := by
  induction xs with
  | nil => intro a; exact Or.inl rfl
  | cons x xs ih =>
      intro a
      rcases ih (min a x) with h | h
      · rcases min_choice a x with h2 | h2
        · exact Or.inl (h.trans h2)
        · exact Or.inr (by rw [List.mem_cons]; exact Or.inl (h.trans h2))
      · exact Or.inr (List.mem_cons.mpr (Or.inr h))

lemma listMin_mem {xs : List Int} (h : xs ≠ []) : listMin xs ∈ xs := by
  cases xs with
  | nil => exact absurd rfl h
  | cons x xs =>
      show xs.foldl min x ∈ x :: xs
      rcases foldl_min_mem xs x with h2 | h2
      · rw [h2]; exact List.mem_cons_self x xs
      · exact List.mem_cons.mpr (Or.inr h2)

lemma listMin_le {xs : List Int} {y : Int} (hy : y ∈ xs) : listMin xs ≤ y := by
  cases xs with
  | nil => cases hy
  | cons x xs =>
      show xs.foldl min x ≤ y
      rcases List.mem_cons.mp hy with rfl | hy
      · exact foldl_min_le_init xs y
      · exact foldl_min_le_mem xs x y hy

lemma foldl_max_init_le (xs : List Int) :
    ∀ a : Int, a ≤ xs.foldl max a := by
  induction xs with
  | nil => intro a; exact le_refl a
  | cons x xs ih =>
      intro a
      exact le_trans (le_max_left a x) (ih (max a x))

lemma foldl_max_mem_le (xs : List Int) :
    ∀ (a y : Int), y ∈ xs → y ≤ xs.foldl max a := by
  induction xs with
  | nil => intro a y hy; cases hy
  | cons x xs ih =>
      intro a y hy
      rcases List.mem_cons.mp hy with rfl | hy
      · exact le_trans (le_max_right a y) (foldl_max_init_le xs (max a y))
      · exact ih (max a x) y hy

lemma foldl_max_mem (xs : List Int) :
    ∀ a : Int, xs.foldl max a = a ∨ xs.foldl max a ∈ xs := by
  induction xs with
  | nil => intro a; exact Or.inl rfl
  | cons x xs ih =>
      intro a
      rcases ih (max a x) with h | h
      · rcases max_choice a x with h2 | h2
        · exact Or.inl (h.trans h2)
        · exact Or.inr (by rw [List.mem_cons]; exact Or.inl (h.trans h2))
      · exact Or.inr (List.mem_cons.mpr (Or.inr h))

lemma listMax_mem {xs : List Int} (h : xs ≠ []) : listMax xs ∈ xs := by
  cases xs with
  | nil => exact absurd rfl h
  | cons x xs =>
      show xs.foldl max x ∈ x :: xs
      rcases foldl_max_mem xs x with h2 | h2
      · rw [h2]; exact List.mem_cons_self x xs
      · exact List.mem_cons.mpr (Or.inr h2)

lemma foldl_closest_le_init (cf : Int) (xs : List Int) :
    ∀ a : Int,
      ((xs.foldl
          (fun closest current =>
            if (current - cf).natAbs < (closest - cf).natAbs then current else closest)
          a) - cf).natAbs ≤ (a - cf).natAbs := by
  induction xs with
  | nil => intro a; exact le_refl _
  | cons x xs ih =>
      intro a
      by_cases h : (x - cf).natAbs < (a - cf).natAbs
      · simp only [List.foldl_cons, if_pos h]
        exact le_trans (ih x) (le_of_lt h)
      · simp only [List.foldl_cons, if_neg h]
        exact ih a

lemma foldl_closest_le_mem (cf : Int) (xs : List Int) :
    ∀ (a y : Int), y ∈ xs →
      ((xs.foldl
          (fun closest current =>
            if (current - cf).natAbs < (closest - cf).natAbs then current else closest)
          a) - cf).natAbs ≤ (y - cf).natAbs := by
  induction xs with
  | nil => intro a y hy; cases hy
  | cons x xs ih =>
      intro a y hy
      rcases List.mem_cons.mp hy with rfl | hy
      · by_cases h : (y - cf).natAbs < (a - cf).natAbs
        · simp only [List.foldl_cons, if_pos h]
          exact foldl_closest_le_init cf xs y
        · simp only [List.foldl_cons, if_neg h]
          exact le_trans (foldl_closest_le_init cf xs a) (le_of_not_lt h)
      · by_cases h : (x - cf).natAbs < (a - cf).natAbs
        · simp only [List.foldl_cons, if_pos h]
          exact ih x y hy
        · simp only [List.foldl_cons, if_neg h]
          exact ih a y hy

lemma foldl_closest_mem (cf : Int) (xs : List Int) :
    ∀ a : Int,
      xs.foldl
          (fun closest current =>
            if (current - cf).natAbs < (closest - cf).natAbs then current else closest)
          a = a ∨
      xs.foldl
          (fun closest current =>
            if (current - cf).natAbs < (closest - cf).natAbs then current else closest)
          a ∈ xs := by
  induction xs with
  | nil => intro a; exact Or.inl rfl
  | cons x xs ih =>
      intro a
      by_cases h : (x - cf).natAbs < (a - cf).natAbs
      · simp only [List.foldl_cons, if_pos h]
        rcases ih x with h2 | h2
        · exact Or.inr (List.mem_cons.mpr (Or.inl h2))
        · exact Or.inr (List.mem_cons.mpr (Or.inr h2))
      · simp only [List.foldl_cons, if_neg h]
        rcases ih a with h2 | h2
        · exact Or.inl h2
        · exact Or.inr (List.mem_cons.mpr (Or.inr h2))

lemma reduceClosest_mem {cf : Int} {xs : List Int} (h : xs ≠ []) :
    reduceClosest cf xs ∈ xs := by
  cases xs with
  | nil => exact absurd rfl h
  | cons x xs =>
      show xs.foldl _ x ∈ x :: xs
      rcases foldl_closest_mem cf xs x with h2 | h2
      · rw [h2]; exact List.mem_cons_self x xs
      · exact List.mem_cons.mpr (Or.inr h2)

lemma reduceClosest_min {cf : Int} {xs : List Int} {y : Int} (hy : y ∈ xs) :
    ((reduceClosest cf xs) - cf).natAbs ≤ (y - cf).natAbs := by
  cases xs with
  | nil => cases hy
  | cons x xs =>
      show ((xs.foldl _ x) - cf).natAbs ≤ _
      rcases List.mem_cons.mp hy with rfl | hy
      · exact foldl_closest_le_init cf xs y
      · exact foldl_closest_le_mem cf xs x y hy

lemma mem_sortedInsert {x y : Int} {xs : List Int} :
    y ∈ sortedInsert x xs ↔ y = x ∨ y ∈ xs := by
  induction xs with
  | nil => simp [sortedInsert]
  | cons z zs ih =>
      unfold sortedInsert
      by_cases h : x ≤ z
      · simp [if_pos h]
      · simp only [if_neg h, List.mem_cons, ih]
        tauto

lemma mem_jsSort {y : Int} {xs : List Int} : y ∈ jsSort xs ↔ y ∈ xs := by
  induction xs with
  | nil => simp [jsSort]
  | cons x xs ih =>
      unfold jsSort
      rw [mem_sortedInsert, ih, List.mem_cons]

lemma listMax_ge {xs : List Int} {y : Int} (hy : y ∈ xs) : y ≤ listMax xs := by
  cases xs with
  | nil => cases hy
  | cons x xs =>
      show y ≤ xs.foldl max x
      rcases List.mem_cons.mp hy with rfl | hy
      · exact foldl_max_init_le xs y
      · exact foldl_max_mem_le xs x y hy

lemma record_direction_self (e : Elevator) (h : e.direction = Direction.idle) :
    { e with direction := Direction.idle } = e := by
  rw [← h]

/-- C3: for a car whose direction is Up or Idle, whenever some eligible
floor lies strictly above the current floor, `_getNextDestination`
returns the minimum eligible floor above, never a farther one. -/
theorem C3_scan_up_min (e : Elevator)
    (hdir : e.direction = Direction.up ∨ e.direction = Direction.idle)
    (f0 : Int) (hf0 : f0 ∈ e.allFloorsList) (hf0gt : e.currentFloor < f0) :
    ∃ m, e.getNextDestination = some m ∧ m ∈ e.allFloorsList ∧ e.currentFloor < m ∧
      ∀ f ∈ e.allFloorsList, e.currentFloor < f → m ≤ f := by
  have hne : e.allFloorsList ≠ [] := List.ne_nil_of_mem hf0
  have hup : f0 ∈ e.allFloorsList.filter (fun f => decide (e.currentFloor < f)) :=
    List.mem_filter.mpr ⟨hf0, by simpa using hf0gt⟩
  have hupne : e.allFloorsList.filter (fun f => decide (e.currentFloor < f)) ≠ [] :=
    List.ne_nil_of_mem hup
  have hmem : listMin (e.allFloorsList.filter (fun f => decide (e.currentFloor < f)))
      ∈ e.allFloorsList.filter (fun f => decide (e.currentFloor < f)) := listMin_mem hupne
  have hmem2 := List.mem_filter.mp hmem
  refine ⟨listMin (e.allFloorsList.filter (fun f => decide (e.currentFloor < f))),
    ?_, hmem2.1, by simpa using hmem2.2, ?_⟩
  · unfold Elevator.getNextDestination
    simp only []
    rw [if_neg hne, if_pos ⟨hdir, hupne⟩]
  · intro f hf hfgt
    exact listMin_le (List.mem_filter.mpr ⟨hf, by simpa using hfgt⟩)

/-- C4: for a committed car with eligible floors but none strictly
ahead in its scan direction, `_getNextDestination` falls back to the
eligible floor of minimum absolute distance, returning the lower floor
whenever two eligible floors are equidistant. -/
theorem C4_fallback_closest (e : Elevator)
    (hdir : e.direction = Direction.up ∨ e.direction = Direction.down)
    (hne : e.allFloorsList ≠ [])
    (hupnone : e.direction = Direction.up → ∀ f ∈ e.allFloorsList, ¬ e.currentFloor < f)
    (hdownnone : e.direction = Direction.down → ∀ f ∈ e.allFloorsList, ¬ f < e.currentFloor) :
    ∃ m, e.getNextDestination = some m ∧ m ∈ e.allFloorsList ∧
      (∀ f ∈ e.allFloorsList,
        (m - e.currentFloor).natAbs ≤ (f - e.currentFloor).natAbs) ∧
      (∀ f ∈ e.allFloorsList,
        (f - e.currentFloor).natAbs = (m - e.currentFloor).natAbs → m ≤ f) := by
  have hnotidle : e.direction ≠ Direction.idle := by
    rcases hdir with h | h <;> rw [h] <;> intro hx <;> cases hx
  have hmem : reduceClosest e.currentFloor e.allFloorsList ∈ e.allFloorsList :=
    reduceClosest_mem hne
  refine ⟨reduceClosest e.currentFloor e.allFloorsList, ?_, hmem,
    fun f hf => reduceClosest_min hf, ?_⟩
  · unfold Elevator.getNextDestination
    simp only []
    rcases hdir with h | h
    · have hupnil : e.allFloorsList.filter (fun f => decide (e.currentFloor < f)) = [] := by
        rw [List.filter_eq_nil_iff]
        intro a ha
        simpa using hupnone h a ha
      rw [if_neg hne,
        if_neg (by rintro ⟨-, hc⟩; exact hc hupnil),
        if_neg (by rintro ⟨hc, -⟩; rcases hc with hc | hc <;> rw [h] at hc <;> cases hc),
        if_pos ⟨hnotidle, hne⟩]
    · have hdownnil : e.allFloorsList.filter (fun f => decide (f < e.currentFloor)) = [] := by
        rw [List.filter_eq_nil_iff]
        intro a ha
        simpa using hdownnone h a ha
      rw [if_neg hne,
        if_neg (by rintro ⟨hc, -⟩; rcases hc with hc | hc <;> rw [h] at hc <;> cases hc),
        if_neg (by rintro ⟨-, hc⟩; exact hc hdownnil),
        if_pos ⟨hnotidle, hne⟩]
  · intro f hf heq
    rcases hdir with h | h
    · have h1 : ¬ e.currentFloor < f := hupnone h f hf
      have h2 : ¬ e.currentFloor < reduceClosest e.currentFloor e.allFloorsList :=
        hupnone h _ hmem
      omega
    · have h1 : ¬ f < e.currentFloor := hdownnone h f hf
      have h2 : ¬ reduceClosest e.currentFloor e.allFloorsList < e.currentFloor :=
        hdownnone h _ hmem
      omega

/-- C10: an Idle car whose every eligible floor equals its current
floor (for instance one whose only pending request is a hall request at
its own floor) computes no destination, reports no work, and its state
— that hall request included — survives any number of cycles. -/
theorem C10_idle_here_never_served (e : Elevator)
    (hdir : e.direction = Direction.idle)
    (hall : ∀ f ∈ e.allFloorsList, f = e.currentFloor) :
    e.getNextDestination = none ∧ e.runCycle = (false, e) ∧
      ∀ n, iterCycles n e = e := by
  have hupnil : e.allFloorsList.filter (fun f => decide (e.currentFloor < f)) = [] := by
    rw [List.filter_eq_nil_iff]
    intro a ha
    have := hall a ha
    simp [this]
  have hdownnil : e.allFloorsList.filter (fun f => decide (f < e.currentFloor)) = [] := by
    rw [List.filter_eq_nil_iff]
    intro a ha
    have := hall a ha
    simp [this]
  have hnone : e.getNextDestination = none := by
    unfold Elevator.getNextDestination
    simp only []
    by_cases hne : e.allFloorsList = []
    · rw [if_pos hne]
    · rw [if_neg hne,
        if_neg (by rintro ⟨-, hc⟩; exact hc hupnil),
        if_neg (by rintro ⟨-, hc⟩; exact hc hdownnil),
        if_neg (by rintro ⟨hc, -⟩; exact hc hdir)]
  have hcycle : e.runCycle = (false, e) := by
    unfold Elevator.runCycle
    rw [hnone, record_direction_self e hdir]
  refine ⟨hnone, hcycle, ?_⟩
  intro n
  induction n with
  | zero => rfl
  | succ n ih =>
      show iterCycles n (e.runCycle).2 = e
      rw [hcycle]
      exact ih

lemma updateDirection_parts (t : Int) (e : Elevator) :
    (e.updateDirection t).floorRequests = e.floorRequests ∧
    (e.updateDirection t).hallRequests = e.hallRequests ∧
    (e.updateDirection t).currentFloor = e.currentFloor ∧
    (e.updateDirection t).minFloor = e.minFloor ∧
    (e.updateDirection t).maxFloor = e.maxFloor := by
  unfold Elevator.updateDirection
  split
  · exact ⟨rfl, rfl, rfl, rfl, rfl⟩
  · split
    · exact ⟨rfl, rfl, rfl, rfl, rfl⟩
    · exact ⟨rfl, rfl, rfl, rfl, rfl⟩

lemma moveToFloor_parts (t : Int) (e : Elevator) :
    (e.moveToFloor t).floorRequests = e.floorRequests ∧
    (e.moveToFloor t).hallRequests = e.hallRequests ∧
    (e.moveToFloor t).currentFloor = t ∧
    (e.moveToFloor t).minFloor = e.minFloor ∧
    (e.moveToFloor t).maxFloor = e.maxFloor := by
  unfold Elevator.moveToFloor
  by_cases h : t = e.currentFloor
  · rw [if_pos h]
    exact ⟨rfl, rfl, h.symm, rfl, rfl⟩
  · rw [if_neg h]
    rcases updateDirection_parts t e with ⟨h1, h2, h3, h4, h5⟩
    exact ⟨h1, h2, rfl, h4, h5⟩

lemma moveToFloor_direction_of_ne (t : Int) (e : Elevator) (h : t ≠ e.currentFloor) :
    (e.moveToFloor t).direction = (e.updateDirection t).direction := by
  unfold Elevator.moveToFloor
  rw [if_neg h]

lemma runCycle_some_parts (e : Elevator) (d : Int)
    (hdest : e.getNextDestination = some d) :
    (e.runCycle).1 = true ∧
    (e.runCycle).2.direction = (e.moveToFloor d).direction ∧
    (e.runCycle).2.currentFloor = d ∧
    (e.runCycle).2.floorRequests = e.floorRequests.erase d ∧
    (e.runCycle).2.hallRequests =
      e.hallRequests.filter
        (fun r =>
          !(decide (r.floor = d ∧
              (r.direction = (e.moveToFloor d).direction ∨
               (e.moveToFloor d).direction = Direction.idle)))) ∧
    (e.runCycle).2.minFloor = e.minFloor ∧
    (e.runCycle).2.maxFloor = e.maxFloor := by
  rcases moveToFloor_parts d e with ⟨h1, h2, h3, h4, h5⟩
  simp only [Elevator.runCycle, hdest, Elevator.removeCompletedRequests]
  refine ⟨trivial, trivial, h3, ?_, ?_, h4, h5⟩
  · show ((e.moveToFloor d).floorRequests).erase d = e.floorRequests.erase d
    rw [h1]
  · show ((e.moveToFloor d).hallRequests).filter _ = e.hallRequests.filter _
    rw [h2]

/-- C2 (amended): when `runCycle` computes a destination, the direction
after its update phase is Up for a destination above the current floor
and Down for one below; when the destination equals the current floor
the direction is left unchanged (the early return of `_moveToFloor`
skips `_updateDirection`). -/
theorem C2_direction_update (e : Elevator) (d : Int)
    (hdest : e.getNextDestination = some d) :
    (e.currentFloor < d → (e.runCycle).2.direction = Direction.up) ∧
    (d < e.currentFloor → (e.runCycle).2.direction = Direction.down) ∧
    (d = e.currentFloor → (e.runCycle).2.direction = e.direction) := by
  have hd := (runCycle_some_parts e d hdest).2.1
  refine ⟨?_, ?_, ?_⟩
  · intro hlt
    rw [hd, moveToFloor_direction_of_ne d e (by omega)]
    unfold Elevator.updateDirection
    rw [if_pos hlt]
  · intro hlt
    rw [hd, moveToFloor_direction_of_ne d e (by omega)]
    unfold Elevator.updateDirection
    rw [if_neg (by omega), if_pos hlt]
  · intro heq
    rw [hd]
    unfold Elevator.moveToFloor
    rw [if_pos heq]

/-- C2 (counterexample): a reachable car at floor 5 heading Up with a
Down hall call at floor 5 computes its own floor as destination, yet
the cycle leaves its direction Up instead of Idle. -/
theorem C2_counterexample :
    stuckCar.getNextDestination = some stuckCar.currentFloor ∧
    stuckCar.direction = Direction.up ∧
    (stuckCar.runCycle).2.direction = Direction.up ∧
    (stuckCar.runCycle).2.direction ≠ Direction.idle := by
  decide

/-- C5: after a cycle serving destination `f`, `f` is gone from the
cabin set, no hall request at `f` matching the post-arrival direction
survives (none at all if that direction is Idle), and requests at every
other floor are untouched. -/
theorem C5_request_retirement (e : Elevator) (f : Int)
    (hnodup : e.floorRequests.Nodup)
    (hdest : e.getNextDestination = some f) :
    (e.runCycle).1 = true ∧
    f ∉ (e.runCycle).2.floorRequests ∧
    (∀ r ∈ (e.runCycle).2.hallRequests,
       ¬(r.floor = f ∧ r.direction = (e.runCycle).2.direction)) ∧
    ((e.runCycle).2.direction = Direction.idle →
       ∀ r ∈ (e.runCycle).2.hallRequests, r.floor ≠ f) ∧
    (∀ g : Int, g ≠ f →
       (g ∈ (e.runCycle).2.floorRequests ↔ g ∈ e.floorRequests)) ∧
    (∀ r : FloorRequest, r.floor ≠ f →
       (r ∈ (e.runCycle).2.hallRequests ↔ r ∈ e.hallRequests)) := by
  rcases runCycle_some_parts e f hdest with ⟨hw, hdir, -, hfl, hhall, -, -⟩
  refine ⟨hw, ?_, ?_, ?_, ?_, ?_⟩
  · rw [hfl]
    exact hnodup.not_mem_erase
  · intro r hr
    rw [hhall] at hr
    rcases List.mem_filter.mp hr with ⟨-, hp⟩
    rw [hdir]
    rintro ⟨hrf, hrd⟩
    simp only [Bool.not_eq_eq_eq_not, Bool.not_true, decide_eq_false_iff_not] at hp
    exact hp ⟨hrf, Or.inl hrd⟩
  · intro hidle r hr
    rw [hhall] at hr
    rcases List.mem_filter.mp hr with ⟨-, hp⟩
    rw [hdir] at hidle
    intro hrf
    simp only [Bool.not_eq_eq_eq_not, Bool.not_true, decide_eq_false_iff_not] at hp
    exact hp ⟨hrf, Or.inr hidle⟩
  · intro g hg
    rw [hfl]
    exact List.mem_erase_of_ne hg
  · intro r hrf
    rw [hhall]
    constructor
    · intro hr
      exact (List.mem_filter.mp hr).1
    · intro hr
      refine List.mem_filter.mpr ⟨hr, ?_⟩
      simp only [Bool.not_eq_eq_eq_not, Bool.not_true, decide_eq_false_iff_not]
      rintro ⟨hc, -⟩
      exact hrf hc

/-- C3 witness: concrete Idle car at floor 1 with cabin floors 4, 7. -/
theorem C3_scan_up_min_witness :
    ((sampleUpCar.direction = Direction.up ∨ sampleUpCar.direction = Direction.idle) ∧
     (4 : Int) ∈ sampleUpCar.allFloorsList ∧ sampleUpCar.currentFloor < 4) ∧
    (∃ m, sampleUpCar.getNextDestination = some m ∧ m ∈ sampleUpCar.allFloorsList ∧
      sampleUpCar.currentFloor < m ∧
      ∀ f ∈ sampleUpCar.allFloorsList, sampleUpCar.currentFloor < f → m ≤ f) :=
  ⟨⟨by decide, by decide, by decide⟩,
    C3_scan_up_min sampleUpCar (by decide) 4 (by decide) (by decide)⟩

/-- C4 witness: concrete Up car at floor 6 whose only eligible floor is 2. -/
theorem C4_fallback_closest_witness :
    ((sampleFallbackCar.direction = Direction.up ∨
        sampleFallbackCar.direction = Direction.down) ∧
     sampleFallbackCar.allFloorsList ≠ [] ∧
     (sampleFallbackCar.direction = Direction.up →
        ∀ f ∈ sampleFallbackCar.allFloorsList, ¬ sampleFallbackCar.currentFloor < f) ∧
     (sampleFallbackCar.direction = Direction.down →
        ∀ f ∈ sampleFallbackCar.allFloorsList, ¬ f < sampleFallbackCar.currentFloor)) ∧
    (∃ m, sampleFallbackCar.getNextDestination = some m ∧
      m ∈ sampleFallbackCar.allFloorsList ∧
      (∀ f ∈ sampleFallbackCar.allFloorsList,
        (m - sampleFallbackCar.currentFloor).natAbs ≤
          (f - sampleFallbackCar.currentFloor).natAbs) ∧
      (∀ f ∈ sampleFallbackCar.allFloorsList,
        (f - sampleFallbackCar.currentFloor).natAbs =
            (m - sampleFallbackCar.currentFloor).natAbs → m ≤ f)) :=
  ⟨⟨by decide, by decide, by decide, by decide⟩,
    C4_fallback_closest sampleFallbackCar (by decide) (by decide) (by decide) (by decide)⟩

/-- C10 witness: concrete Idle car whose only request is a hall call at
its own floor. -/
theorem C10_idle_here_never_served_witness :
    (sampleHereCar.direction = Direction.idle ∧
     ∀ f ∈ sampleHereCar.allFloorsList, f = sampleHereCar.currentFloor) ∧
    (sampleHereCar.getNextDestination = none ∧
     sampleHereCar.runCycle = (false, sampleHereCar) ∧
     ∀ n, iterCycles n sampleHereCar = sampleHereCar) :=
  ⟨⟨by decide, by decide⟩,
    C10_idle_here_never_served sampleHereCar (by decide) (by decide)⟩

/-- C2 witness: concrete car computing destination 4 from floor 1. -/
theorem C2_direction_update_witness :
    sampleUpCar.getNextDestination = some 4 ∧
    ((sampleUpCar.currentFloor < 4 →
        (sampleUpCar.runCycle).2.direction = Direction.up) ∧
     (4 < sampleUpCar.currentFloor →
        (sampleUpCar.runCycle).2.direction = Direction.down) ∧
     ((4 : Int) = sampleUpCar.currentFloor →
        (sampleUpCar.runCycle).2.direction = sampleUpCar.direction)) :=
  ⟨by decide, C2_direction_update sampleUpCar 4 (by decide)⟩

/-- C5 witness: concrete car serving floor 9 with both hall directions
pending there. -/
theorem C5_request_retirement_witness :
    (sampleServeCar.floorRequests.Nodup ∧
     sampleServeCar.getNextDestination = some 9) ∧
    ((sampleServeCar.runCycle).1 = true ∧
     (9 : Int) ∉ (sampleServeCar.runCycle).2.floorRequests ∧
     (∀ r ∈ (sampleServeCar.runCycle).2.hallRequests,
        ¬(r.floor = 9 ∧ r.direction = (sampleServeCar.runCycle).2.direction)) ∧
     ((sampleServeCar.runCycle).2.direction = Direction.idle →
        ∀ r ∈ (sampleServeCar.runCycle).2.hallRequests, r.floor ≠ 9) ∧
     (∀ g : Int, g ≠ 9 →
        (g ∈ (sampleServeCar.runCycle).2.floorRequests ↔
         g ∈ sampleServeCar.floorRequests)) ∧
     (∀ r : FloorRequest, r.floor ≠ 9 →
        (r ∈ (sampleServeCar.runCycle).2.hallRequests ↔
         r ∈ sampleServeCar.hallRequests))) :=
  ⟨⟨by decide, by decide⟩,
    C5_request_retirement sampleServeCar 9 (by decide) (by decide)⟩

/-- C7: out-of-range cabin and hall requests fail without touching the
state, and Up from the top floor / Down from the bottom floor always
fail without touching the state. -/
theorem C7_invalid_requests_rejected (e : Elevator) (floor : Int) (d : Direction) :
    ((floor < e.minFloor ∨ e.maxFloor < floor) →
        Elevator.requestFloor floor e = (false, e) ∧
        Elevator.callElevator floor d e = (false, e)) ∧
    Elevator.callElevator e.maxFloor Direction.up e = (false, e) ∧
    Elevator.callElevator e.minFloor Direction.down e = (false, e) := by
  refine ⟨?_, ?_, ?_⟩
  · intro h
    have hinv : ¬ e.isValidFloor floor := by
      unfold Elevator.isValidFloor
      omega
    constructor
    · unfold Elevator.requestFloor
      rw [if_pos hinv]
    · unfold Elevator.callElevator
      rw [if_pos hinv]
  · unfold Elevator.callElevator
    by_cases hv : e.isValidFloor e.maxFloor
    · rw [if_neg (not_not_intro hv), if_pos (Or.inl ⟨rfl, rfl⟩)]
    · rw [if_pos hv]
  · unfold Elevator.callElevator
    by_cases hv : e.isValidFloor e.minFloor
    · rw [if_neg (not_not_intro hv), if_pos (Or.inr ⟨rfl, rfl⟩)]
    · rw [if_pos hv]

/-- C7 witness: concrete rejections on a fresh car with floors 1–10. -/
theorem C7_invalid_requests_rejected_witness :
    ((42 : Int) < demoCarA.minFloor ∨ demoCarA.maxFloor < 42) ∧
    (Elevator.requestFloor 42 demoCarA = (false, demoCarA) ∧
     Elevator.callElevator 42 Direction.up demoCarA = (false, demoCarA)) ∧
    Elevator.callElevator demoCarA.maxFloor Direction.up demoCarA = (false, demoCarA) ∧
    Elevator.callElevator demoCarA.minFloor Direction.down demoCarA = (false, demoCarA) :=
  ⟨by decide,
   (C7_invalid_requests_rejected demoCarA 42 Direction.up).1 (by decide),
   (C7_invalid_requests_rejected demoCarA 42 Direction.up).2.1,
   (C7_invalid_requests_rejected demoCarA 42 Direction.up).2.2⟩

lemma getNext_mem {e : Elevator} {d : Int}
    (h : e.getNextDestination = some d) : d ∈ e.allFloorsList := by
  unfold Elevator.getNextDestination at h
  simp only [] at h
  by_cases hne : e.allFloorsList = []
  · rw [if_pos hne] at h
    cases h
  · rw [if_neg hne] at h
    by_cases c1 : (e.direction = Direction.up ∨ e.direction = Direction.idle) ∧
        e.allFloorsList.filter (fun f => decide (e.currentFloor < f)) ≠ []
    · rw [if_pos c1] at h
      have hmem := listMin_mem c1.2
      rw [Option.some.injEq] at h
      rw [← h]
      exact (List.mem_filter.mp hmem).1
    · rw [if_neg c1] at h
      by_cases c2 : (e.direction = Direction.down ∨ e.direction = Direction.idle) ∧
          e.allFloorsList.filter (fun f => decide (f < e.currentFloor)) ≠ []
      · rw [if_pos c2] at h
        have hmem := listMax_mem c2.2
        rw [Option.some.injEq] at h
        rw [← h]
        exact (List.mem_filter.mp hmem).1
      · rw [if_neg c2] at h
        by_cases c3 : e.direction ≠ Direction.idle ∧ e.allFloorsList ≠ []
        · rw [if_pos c3] at h
          rw [Option.some.injEq] at h
          rw [← h]
          exact reduceClosest_mem c3.2
        · rw [if_neg c3] at h
          cases h

lemma requestFloor_bounds (floor : Int) (e : Elevator) :
    ((Elevator.requestFloor floor e).2).minFloor = e.minFloor ∧
    ((Elevator.requestFloor floor e).2).maxFloor = e.maxFloor := by
  unfold Elevator.requestFloor
  split
  · exact ⟨rfl, rfl⟩
  · split
    · exact ⟨rfl, rfl⟩
    · split
      · exact ⟨rfl, rfl⟩
      · exact ⟨rfl, rfl⟩

lemma callElevator_bounds (floor : Int) (d : Direction) (e : Elevator) :
    ((Elevator.callElevator floor d e).2).minFloor = e.minFloor ∧
    ((Elevator.callElevator floor d e).2).maxFloor = e.maxFloor := by
  unfold Elevator.callElevator
  split
  · exact ⟨rfl, rfl⟩
  · split
    · exact ⟨rfl, rfl⟩
    · split
      · exact ⟨rfl, rfl⟩
      · exact ⟨rfl, rfl⟩

lemma runCycle_bounds (e : Elevator) :
    ((e.runCycle).2).minFloor = e.minFloor ∧
    ((e.runCycle).2).maxFloor = e.maxFloor := by
  cases hdest : e.getNextDestination with
  | none =>
      unfold Elevator.runCycle
      rw [hdest]
      exact ⟨rfl, rfl⟩
  | some d =>
      rcases runCycle_some_parts e d hdest with ⟨-, -, -, -, -, hmin, hmax⟩
      exact ⟨hmin, hmax⟩

lemma rangeInv_requestFloor (floor : Int) (e : Elevator) (h : rangeInv e) :
    rangeInv (Elevator.requestFloor floor e).2 := by
  unfold Elevator.requestFloor
  by_cases h1 : ¬ e.isValidFloor floor
  · rw [if_pos h1]
    exact h
  · rw [if_neg h1]
    by_cases h2 : floor = e.currentFloor ∧ e.doorState = DoorState.closed
    · rw [if_pos h2]
      exact h
    · rw [if_neg h2]
      by_cases h3 : floor ∈ e.floorRequests
      · rw [if_pos h3]
        exact h
      · rw [if_neg h3]
        rcases h with ⟨ha, hb, hc, hd⟩
        refine ⟨ha, hb, ?_, hd⟩
        intro f hf
        rw [show ({ e with floorRequests := jsSort (e.floorRequests ++ [floor])} :
              Elevator).floorRequests = jsSort (e.floorRequests ++ [floor]) from rfl,
          mem_jsSort] at hf
        rcases List.mem_append.mp hf with hf | hf
        · exact hc f hf
        · have hff : f = floor := by simpa using hf
          subst hff
          exact not_not.mp h1

lemma rangeInv_callElevator (floor : Int) (d : Direction) (e : Elevator)
    (h : rangeInv e) : rangeInv (Elevator.callElevator floor d e).2 := by
  unfold Elevator.callElevator
  by_cases h1 : ¬ e.isValidFloor floor
  · rw [if_pos h1]
    exact h
  · rw [if_neg h1]
    by_cases h2 : (floor = e.maxFloor ∧ d = Direction.up) ∨
        (floor = e.minFloor ∧ d = Direction.down)
    · rw [if_pos h2]
      exact h
    · rw [if_neg h2]
      by_cases h3 : ∃ r ∈ e.hallRequests, r.floor = floor ∧ r.direction = d
      · rw [if_pos h3]
        exact h
      · rw [if_neg h3]
        rcases h with ⟨ha, hb, hc, hd⟩
        refine ⟨ha, hb, hc, ?_⟩
        intro r hr
        rw [show ({ e with hallRequests := e.hallRequests ++ [⟨floor, d⟩] } :
              Elevator).hallRequests = e.hallRequests ++ [⟨floor, d⟩] from rfl] at hr
        rcases List.mem_append.mp hr with hr | hr
        · exact hd r hr
        · have hrr : r = ⟨floor, d⟩ := by simpa using hr
          subst hrr
          exact not_not.mp h1

lemma rangeInv_runCycle (e : Elevator) (h : rangeInv e) :
    rangeInv (e.runCycle).2 := by
  cases hdest : e.getNextDestination with
  | none =>
      unfold Elevator.runCycle
      rw [hdest]
      exact h
  | some d =>
      have hdmem := getNext_mem hdest
      have hdrange : e.minFloor ≤ d ∧ d ≤ e.maxFloor := by
        rcases mem_allFloorsList.mp hdmem with hd | ⟨r, hr, -, hfl⟩
        · exact h.2.2.1 d hd
        · rw [← hfl]
          exact h.2.2.2 r hr
      rcases runCycle_some_parts e d hdest with ⟨-, -, hcf, hfl2, hhall, hmin, hmax⟩
      unfold rangeInv
      rw [hcf, hfl2, hhall, hmin, hmax]
      refine ⟨hdrange.1, hdrange.2, ?_, ?_⟩
      · intro f hf
        exact h.2.2.1 f (List.mem_of_mem_erase hf)
      · intro r hr
        exact h.2.2.2 r (List.mem_filter.mp hr).1

lemma rangeInv_applyOp (e : Elevator) (op : ElevOp) (h : rangeInv e) :
    rangeInv (applyOp e op) := by
  cases op with
  | cabin f => exact rangeInv_requestFloor f e h
  | hall f d => exact rangeInv_callElevator f d e h
  | cycle => exact rangeInv_runCycle e h

lemma rangeInv_applyOps (ops : List ElevOp) :
    ∀ e : Elevator, rangeInv e → rangeInv (applyOps e ops) := by
  induction ops with
  | nil => intro e h; exact h
  | cons op ops ih =>
      intro e h
      exact ih (applyOp e op) (rangeInv_applyOp e op h)

/-- C9 (counterexample): a car constructed with bounds 2–10 (which
satisfy `minFloor < maxFloor`) starts at floor 1, outside its own
range: the constructor hardcodes `currentFloor = 1`. -/
theorem C9_counterexample :
    (Elevator.make 1 2 10).minFloor < (Elevator.make 1 2 10).maxFloor ∧
    ¬((Elevator.make 1 2 10).minFloor ≤ (Elevator.make 1 2 10).currentFloor ∧
      (Elevator.make 1 2 10).currentFloor ≤ (Elevator.make 1 2 10).maxFloor) := by
  decide

/-- C9 (amended): for bounds with `minFloor ≤ 1 ≤ maxFloor` the current
floor lies within range at construction and stays there under every
sequence of cabin requests, hall requests and cycles. -/
theorem C9_floor_containment (elevatorId minF maxF : Int)
    (h1 : minF ≤ 1) (h2 : 1 ≤ maxF) (ops : List ElevOp) :
    minF ≤ (applyOps (Elevator.make elevatorId minF maxF) ops).currentFloor ∧
    (applyOps (Elevator.make elevatorId minF maxF) ops).currentFloor ≤ maxF := by
  have hinv0 : rangeInv (Elevator.make elevatorId minF maxF) := by
    refine ⟨h1, h2, ?_, ?_⟩
    · intro f hf
      cases hf
    · intro r hr
      cases hr
  have hinv := rangeInv_applyOps ops (Elevator.make elevatorId minF maxF) hinv0
  have hbounds : (applyOps (Elevator.make elevatorId minF maxF) ops).minFloor = minF ∧
      (applyOps (Elevator.make elevatorId minF maxF) ops).maxFloor = maxF := by
    have hstep : ∀ (l : List ElevOp) (e : Elevator),
        (applyOps e l).minFloor = e.minFloor ∧ (applyOps e l).maxFloor = e.maxFloor := by
      intro l
      induction l with
      | nil => intro e; exact ⟨rfl, rfl⟩
      | cons op l ih =>
          intro e
          have hop : (applyOp e op).minFloor = e.minFloor ∧
              (applyOp e op).maxFloor = e.maxFloor := by
            cases op with
            | cabin f => exact requestFloor_bounds f e
            | hall f d => exact callElevator_bounds f d e
            | cycle => exact runCycle_bounds e
          rcases ih (applyOp e op) with ⟨ha, hb⟩
          exact ⟨ha.trans hop.1, hb.trans hop.2⟩
    exact hstep ops (Elevator.make elevatorId minF maxF)
  refine ⟨?_, ?_⟩
  · have hle := hinv.1
    rw [hbounds.1] at hle
    exact hle
  · have hle := hinv.2.1
    rw [hbounds.2] at hle
    exact hle

/-- C9 witness: a concrete car on floors 1–10 stays in range along a
concrete operation sequence. -/
theorem C9_floor_containment_witness :
    ((1 : Int) ≤ 1 ∧ (1 : Int) ≤ 10) ∧
    ((1 : Int) ≤ (applyOps (Elevator.make 1 1 10)
        [ElevOp.cabin 5, ElevOp.hall 9 Direction.down, ElevOp.cycle,
         ElevOp.cycle]).currentFloor ∧
     (applyOps (Elevator.make 1 1 10)
        [ElevOp.cabin 5, ElevOp.hall 9 Direction.down, ElevOp.cycle,
         ElevOp.cycle]).currentFloor ≤ 10) :=
  ⟨⟨by decide, by decide⟩,
    C9_floor_containment 1 1 10 (by decide) (by decide)
      [ElevOp.cabin 5, ElevOp.hall 9 Direction.down, ElevOp.cycle, ElevOp.cycle]⟩

lemma bestIndexAux_spec (floor : Int) (d : Direction) :
    ∀ (es : List Elevator) (i j : Nat) (s : Int),
      (bestIndexAux floor d es i (some (j, s)) = some j ∧
        ∀ e ∈ es, s ≤ scoreOf floor d e) ∨
      (∃ m e, es[m]? = some e ∧
        bestIndexAux floor d es i (some (j, s)) = some (i + m) ∧
        scoreOf floor d e < s ∧
        (∀ (l : Nat) (f : Elevator), es[l]? = some f →
          scoreOf floor d e ≤ scoreOf floor d f) ∧
        (∀ (l : Nat) (f : Elevator), l < m → es[l]? = some f →
          scoreOf floor d e < scoreOf floor d f)) := by
  intro es
  induction es with
  | nil =>
      intro i j s
      left
      constructor
      · rfl
      · intro e he
        cases he
  | cons e rest ih =>
      intro i j s
      by_cases h : scoreOf floor d e < s
      · have hred : bestIndexAux floor d (e :: rest) i (some (j, s)) =
            bestIndexAux floor d rest (i + 1) (some (i, scoreOf floor d e)) := by
          simp [bestIndexAux, h]
        rcases ih (i + 1) i (scoreOf floor d e) with
          ⟨hres, hmin⟩ | ⟨m, e2, hm, hres, hlt, hmin, hstrict⟩
        · right
          refine ⟨0, e, List.getElem?_cons_zero, ?_, h, ?_, ?_⟩
          · rw [hred, hres, Nat.add_zero]
          · intro l f hf
            cases l with
            | zero =>
                rw [List.getElem?_cons_zero, Option.some.injEq] at hf
                rw [← hf]
            | succ l =>
                rw [List.getElem?_cons_succ] at hf
                exact hmin f (List.getElem?_mem hf)
          · intro l f hl hf
            cases hl
        · right
          refine ⟨m + 1, e2, ?_, ?_, lt_trans hlt h, ?_, ?_⟩
          · rw [List.getElem?_cons_succ]
            exact hm
          · rw [hred, hres, Option.some.injEq]
            omega
          · intro l f hf
            cases l with
            | zero =>
                rw [List.getElem?_cons_zero, Option.some.injEq] at hf
                rw [← hf]
                exact le_of_lt hlt
            | succ l =>
                rw [List.getElem?_cons_succ] at hf
                exact hmin l f hf
          · intro l f hl hf
            cases l with
            | zero =>
                rw [List.getElem?_cons_zero, Option.some.injEq] at hf
                rw [← hf]
                exact hlt
            | succ l =>
                rw [List.getElem?_cons_succ] at hf
                exact hstrict l f (by omega) hf
      · have hred : bestIndexAux floor d (e :: rest) i (some (j, s)) =
            bestIndexAux floor d rest (i + 1) (some (j, s)) := by
          simp [bestIndexAux, h]
        rcases ih (i + 1) j s with
          ⟨hres, hmin⟩ | ⟨m, e2, hm, hres, hlt, hmin, hstrict⟩
        · left
          refine ⟨hred.trans hres, ?_⟩
          intro f hf
          rcases List.mem_cons.mp hf with rfl | hf
          · exact le_of_not_lt h
          · exact hmin f hf
        · right
          refine ⟨m + 1, e2, ?_, ?_, hlt, ?_, ?_⟩
          · rw [List.getElem?_cons_succ]
            exact hm
          · rw [hred, hres, Option.some.injEq]
            omega
          · intro l f hf
            cases l with
            | zero =>
                rw [List.getElem?_cons_zero, Option.some.injEq] at hf
                rw [← hf]
                exact le_trans (le_of_lt hlt) (le_of_not_lt h)
            | succ l =>
                rw [List.getElem?_cons_succ] at hf
                exact hmin l f hf
          · intro l f hl hf
            cases l with
            | zero =>
                rw [List.getElem?_cons_zero, Option.some.injEq] at hf
                rw [← hf]
                exact lt_of_lt_of_le hlt (le_of_not_lt h)
            | succ l =>
                rw [List.getElem?_cons_succ] at hf
                exact hstrict l f (by omega) hf

lemma bestIndex_spec (floor : Int) (d : Direction) (es : List Elevator)
    (h : es ≠ []) :
    ∃ i e, bestIndex floor d es = some i ∧ es[i]? = some e ∧
      (∀ (l : Nat) (f : Elevator), es[l]? = some f →
        scoreOf floor d e ≤ scoreOf floor d f) ∧
      (∀ (l : Nat) (f : Elevator), l < i → es[l]? = some f →
        scoreOf floor d e < scoreOf floor d f) := by
  cases es with
  | nil => exact absurd rfl h
  | cons e rest =>
      have hred : bestIndex floor d (e :: rest) =
          bestIndexAux floor d rest 1 (some (0, scoreOf floor d e)) := by
        simp [bestIndex, bestIndexAux]
      rcases bestIndexAux_spec floor d rest 1 0 (scoreOf floor d e) with
        ⟨hres, hmin⟩ | ⟨m, e2, hm, hres, hlt, hmin, hstrict⟩
      · refine ⟨0, e, hred.trans hres, List.getElem?_cons_zero, ?_, ?_⟩
        · intro l f hf
          cases l with
          | zero =>
              rw [List.getElem?_cons_zero, Option.some.injEq] at hf
              rw [← hf]
          | succ l =>
              rw [List.getElem?_cons_succ] at hf
              exact hmin f (List.getElem?_mem hf)
        · intro l f hl hf
          cases hl
      · refine ⟨1 + m, e2, hred.trans hres, ?_, ?_, ?_⟩
        · have h1m : 1 + m = m + 1 := by omega
          rw [h1m, List.getElem?_cons_succ]
          exact hm
        · intro l f hf
          cases l with
          | zero =>
              rw [List.getElem?_cons_zero, Option.some.injEq] at hf
              rw [← hf]
              exact le_of_lt hlt
          | succ l =>
              rw [List.getElem?_cons_succ] at hf
              exact hmin l f hf
        · intro l f hl hf
          cases l with
          | zero =>
              rw [List.getElem?_cons_zero, Option.some.injEq] at hf
              rw [← hf]
              exact hlt
          | succ l =>
              rw [List.getElem?_cons_succ] at hf
              exact hstrict l f (by omega) hf

/-- C6: for an in-range hall call on a non-empty car collection, the
controller picks the first car of minimal score (distance, −2 for a
direction match, +1 when busy) and returns exactly what that car's
`callElevator` returns, with that car's state updated in place. -/
theorem C6_dispatcher_selection (c : ElevatorController) (floor : Int)
    (d : Direction) (h1 : c.minFloor ≤ floor) (h2 : floor ≤ c.maxFloor)
    (h3 : c.elevators ≠ []) :
    ∃ i e, c.elevators[i]? = some e ∧
      (∀ (l : Nat) (f : Elevator), c.elevators[l]? = some f →
        scoreOf floor d e ≤ scoreOf floor d f) ∧
      (∀ (l : Nat) (f : Elevator), l < i → c.elevators[l]? = some f →
        scoreOf floor d e < scoreOf floor d f) ∧
      ElevatorController.callElevator floor d c =
        ((Elevator.callElevator floor d e).1,
         { c with elevators :=
             c.elevators.set i (Elevator.callElevator floor d e).2 }) := by
  rcases bestIndex_spec floor d c.elevators h3 with ⟨i, e, hbi, hie, hmin, hstrict⟩
  refine ⟨i, e, hie, hmin, hstrict, ?_⟩
  unfold ElevatorController.callElevator
  rw [if_neg (by omega)]
  simp only [hbi, hie]

/-- C6 witness: the demo controller answering `callElevator(5, UP)`. -/
theorem C6_dispatcher_selection_witness :
    (scenario0.minFloor ≤ 5 ∧ (5 : Int) ≤ scenario0.maxFloor ∧
      scenario0.elevators ≠ []) ∧
    (∃ i e, scenario0.elevators[i]? = some e ∧
      (∀ (l : Nat) (f : Elevator), scenario0.elevators[l]? = some f →
        scoreOf 5 Direction.up e ≤ scoreOf 5 Direction.up f) ∧
      (∀ (l : Nat) (f : Elevator), l < i → scenario0.elevators[l]? = some f →
        scoreOf 5 Direction.up e < scoreOf 5 Direction.up f) ∧
      ElevatorController.callElevator 5 Direction.up scenario0 =
        ((Elevator.callElevator 5 Direction.up e).1,
         { scenario0 with elevators :=
             scenario0.elevators.set i (Elevator.callElevator 5 Direction.up e).2 })) :=
  ⟨⟨by decide, by decide, by decide⟩,
    C6_dispatcher_selection scenario0 5 Direction.up (by decide) (by decide) (by decide)⟩

lemma stuckController_fixpoint : stepAll stuckController = (true, stuckController) := by
  decide

/-- C1: termination fails.  `stuckCar` — reached from a fresh car on
floors 1–10 by `requestFloor(5)`, one cycle, then `callElevator(5,
DOWN)` — is a fixed point of `runCycle` that still reports work done:
the destination equals the current floor, `_moveToFloor` returns early
without updating the stuck Up direction, so the Down hall request is
never retired and `stepAll` returns true forever. -/
theorem C1_stepAll_never_false :
    stuckCar = (Elevator.callElevator 5 Direction.down
      ((Elevator.runCycle ((Elevator.requestFloor 5 (Elevator.make 1 1 10)).2)).2)).2 ∧
    stuckCar.runCycle = (true, stuckCar) ∧
    ∀ n, (stepAll (iterStepAll n stuckController)).1 = true := by
  refine ⟨rfl, by decide, ?_⟩
  intro n
  have hiter : ∀ m, iterStepAll m stuckController = stuckController := by
    intro m
    induction m with
    | zero => rfl
    | succ m ih =>
        show iterStepAll m (stepAll stuckController).2 = stuckController
        rw [stuckController_fixpoint]
        exact ih
  rw [hiter n, stuckController_fixpoint]

/-- C8 (counterexample): in the two-car demo scenario, car 1's first
computed destination is floor 3, not floor 5 as claimed. -/
theorem C8_counterexample :
    scenarioCar1.getNextDestination = some 3 ∧
    scenarioCar1.getNextDestination ≠ some 5 := by
  decide

/-- C8 (amended): `callElevator(5, UP)` goes to car 1 and the later
`callElevator(8, DOWN)` to car 2; car 1's successive destinations are
3, then 5, then 7 (SCAN from floor 1 serves the nearest floor above
first), after which it has none; car 2 travels directly to floor 8. -/
theorem C8_demo_scenario :
    bestIndex 5 Direction.up scenario0.elevators = some 0 ∧
    (ElevatorController.callElevator 5 Direction.up scenario0).1 = true ∧
    bestIndex 8 Direction.down scenario1.elevators = some 1 ∧
    (ElevatorController.callElevator 8 Direction.down scenario1).1 = true ∧
    scenarioCar1.getNextDestination = some 3 ∧
    ((scenarioCar1.runCycle).2).getNextDestination = some 5 ∧
    (((scenarioCar1.runCycle).2.runCycle).2).getNextDestination = some 7 ∧
    ((((scenarioCar1.runCycle).2.runCycle).2.runCycle).2).getNextDestination = none ∧
    scenarioCar2.getNextDestination = some 8 ∧
    ((scenarioCar2.runCycle).2).currentFloor = 8 := by
  decide

end ElevatorSim
